import Mathlib

/-!
Verification development for the PNG/APNG encoder (libavcodec/pngenc.c).

The definitions below are a shallow embedding of the encoder's data model and
operations, translated from the C source.  Bytes are natural numbers below
256, machine arithmetic is made explicit (`% 256`, `% 2^32`, `Int.emod`),
rows and pixel buffers are lists or index functions, and fallible paths
return `Option`/`Except`.
-/

namespace PngEnc

/-! ## Bytes and 32-bit big-endian fields -/

/-- Magnitude of a byte read as a signed int8, `abs((int8_t) b)`:
bytes below 128 count as themselves, bytes at or above 128 as `256 - b`.
Used by the mixed-mode cost loop of `png_choose_filter`. -/
def int8abs (b : Nat) : Nat := if b < 128 then b else 256 - b

/-- Byte subtraction with uint8 wraparound: `(uint8_t)(x - p)`. -/
def byteSub (x p : Nat) : Nat := (((x : Int) - (p : Int)) % 256).toNat

/-- Big-endian 32-bit serialisation, `bytestream_put_be32` / `AV_WB32`. -/
def be32 (n : Nat) : List Nat :=
  [n / 2 ^ 24 % 256, n / 2 ^ 16 % 256, n / 2 ^ 8 % 256, n % 256]

/-- The four bytes of a `MKTAG`-packed chunk tag in stream order.  `MKTAG`
packs the first character in the low byte; `AV_WL32(tagbuf, tag)` (used for
the CRC) and `bytestream_put_be32(f, av_bswap32(tag))` (used for the stream)
both lay the characters out in this order. -/
def tagBytes (tag : Nat) : List Nat :=
  [tag % 256, tag / 2 ^ 8 % 256, tag / 2 ^ 16 % 256, tag / 2 ^ 24 % 256]

/-! ## CRC-32 (av_crc with the AV_CRC_32_IEEE_LE table) -/

/-- One shift-and-conditionally-xor step of the reflected CRC-32 table
generator: `c = (c >> 1) ^ (0xEDB88320 & -(c & 1))`. -/
def crcStepBit (x : Nat) : Nat :=
  if x % 2 = 1 then (x / 2) ^^^ 0xEDB88320 else x / 2

/-- Entry `n` of the AV_CRC_32_IEEE_LE table: eight generator steps. -/
def crcTableEntry (n : Nat) : Nat := crcStepBit^[8] n

/-- One byte of `av_crc`: `crc = tab[(uint8_t) crc ^ b] ^ (crc >> 8)`. -/
def crcUpdate (crc b : Nat) : Nat :=
  crcTableEntry ((crc ^^^ b) % 256) ^^^ (crc / 256)

/-- `av_crc(av_crc_get_table(AV_CRC_32_IEEE_LE), crc, data, len)`. -/
def avCrc (crc : Nat) (data : List Nat) : Nat := data.foldl crcUpdate crc

/-- Whole-buffer CRC-32 as the spec words it: IEEE polynomial, initial value
0xFFFFFFFF, final XOR 0xFFFFFFFF. -/
def crc32 (data : List Nat) : Nat := avCrc 0xFFFFFFFF data ^^^ 0xFFFFFFFF

theorem avCrc_append (crc : Nat) (a b : List Nat) :
    avCrc crc (a ++ b) = avCrc (avCrc crc a) b := by
  simp [avCrc, List.foldl_append]

/-! ## png_write_chunk and the fdAT path of png_write_image_data -/

/-- Model of `png_write_chunk` (pngenc.c:224-241): writes the big-endian
32-bit payload length, the four tag bytes, the payload when non-empty, and
the big-endian complemented running CRC (`~crc`, i.e. `crc ^^^ 0xFFFFFFFF`
on a uint32) accumulated over the tag bytes and then the payload. -/
def png_write_chunk (tag : Nat) (payload : List Nat) : List Nat :=
  let crc0 := avCrc 0xFFFFFFFF (tagBytes tag)
  let crc1 := if 0 < payload.length then avCrc crc0 payload else crc0
  be32 payload.length ++ tagBytes tag ++ payload ++ be32 (crc1 ^^^ 0xFFFFFFFF)

/-- The stream bytes `'f' 'd' 'A' 'T'` written by
`bytestream_put_be32(&s->bytestream, MKBETAG('f','d','A','T'))`. -/
def fdatTagBytes : List Nat := [102, 100, 65, 84]

/-- Model of the fdAT branch of `png_write_image_data` (pngenc.c:255-265):
length field `payload + 4`, the tag, the big-endian 32-bit sequence number,
the payload, then the complemented CRC accumulated over the eight bytes
already written (tag and sequence number) and then the payload. -/
def png_write_image_data_fdat (seq : Nat) (payload : List Nat) : List Nat :=
  be32 (payload.length + 4) ++ fdatTagBytes ++ be32 seq ++ payload ++
    be32 (avCrc (avCrc 0xFFFFFFFF (fdatTagBytes ++ be32 seq)) payload ^^^ 0xFFFFFFFF)

/-- C7: every chunk emitted by png_write_chunk is laid out as the big-endian
32-bit payload length, the four tag bytes, the payload, and the big-endian
CRC-32 (IEEE polynomial, init 0xFFFFFFFF, final XOR 0xFFFFFFFF) over tag and
payload; an fdAT chunk written by png_write_image_data carries length
`payload + 4` and its CRC covers the tag, the 4-byte big-endian sequence
number and the payload. -/
theorem C7_chunk_layout (tag seq : Nat) (payload : List Nat) :
    png_write_chunk tag payload
      = be32 payload.length ++ tagBytes tag ++ payload
          ++ be32 (crc32 (tagBytes tag ++ payload)) ∧
    png_write_image_data_fdat seq payload
      = be32 (payload.length + 4) ++ fdatTagBytes ++ be32 seq ++ payload
          ++ be32 (crc32 (fdatTagBytes ++ be32 seq ++ payload)) := by
  constructor
  · unfold png_write_chunk crc32
    rw [avCrc_append]
    rcases payload with _ | ⟨b, rest⟩ <;> simp [avCrc]
  · unfold png_write_image_data_fdat crc32
    simp only [avCrc_append, List.append_assoc]

/-! ## Row filters (png_filter_row, sub_png_paeth_prediction) -/

/-- Model of the predictor choice inside `sub_png_paeth_prediction`
(pngenc.c:121-147).  With `p = b - c` and `pc = a - c` the code computes
`pa = abs(b-c)`, `pb = abs(a-c)`, `pc = abs((b-c)+(a-c))` and picks `a` when
`pa <= pb && pa <= pc`, else `b` when `pb <= pc`, else `c`. -/
def paethPredict (a b c : Nat) : Nat :=
  if ((b : Int) - c).natAbs ≤ ((a : Int) - c).natAbs ∧
      ((b : Int) - c).natAbs ≤ (((b : Int) - c) + ((a : Int) - c)).natAbs then a
  else if ((a : Int) - c).natAbs ≤ (((b : Int) - c) + ((a : Int) - c)).natAbs then b
  else c

/-- Modelled from the spec's words, for comparison with `paethPredict`: with
`p = a + b - c`, predict whichever of `a`, `b`, `c` minimises `|p - x|`,
ties resolved in the order `a`, then `b`, then `c`. -/
def paethSpecRef (a b c : Nat) : Nat :=
  if (((a : Int) + b - c) - a).natAbs ≤ (((a : Int) + b - c) - b).natAbs ∧
      (((a : Int) + b - c) - a).natAbs ≤ (((a : Int) + b - c) - c).natAbs then a
  else if (((a : Int) + b - c) - b).natAbs ≤ (((a : Int) + b - c) - c).natAbs then b
  else c

/-- Model of `png_filter_row` (pngenc.c:165-192) as a per-index byte map.
`ft` is the predictor id; `src` is the current row, `top` the previous row,
`bpp` the bytes per pixel.  Case 1 is `sub_left_prediction` (copy the first
`bpp` bytes, then byte difference to the left); case 2 is `diff_bytes`
against `top`; case 3 the average filter; case 4 copies the `top` difference
for the first `bpp` bytes and then applies `sub_png_paeth_prediction`.
The default branch is unreachable: the encoder only passes ids 0-4. -/
def png_filter_row (ft : Nat) (src top : Nat → Nat) (bpp : Nat) (i : Nat) : Nat :=
  match ft with
  | 0 => src i
  | 1 => if i < bpp then src i else byteSub (src i) (src (i - bpp))
  | 2 => byteSub (src i) (top i)
  | 3 => if i < bpp then byteSub (src i) (top i / 2)
         else byteSub (src i) ((src (i - bpp) + top i) / 2)
  | 4 => if i < bpp then byteSub (src i) (top i)
         else byteSub (src i) (paethPredict (src (i - bpp)) (top i) (top (i - bpp)))
  | _ => src i

/-- The full filtered output row: predictor byte then `size` filtered bytes,
as assembled by `png_choose_filter` (`buf1[0] = pred` before the cost loop,
`dst[0] = pred` on the single-predictor path). -/
def rowWithFilter (ft : Nat) (src top : Nat → Nat) (bpp size : Nat) : List Nat :=
  ft :: (List.range size).map (png_filter_row ft src top bpp)

/-- Mixed-mode cost of an output row (pngenc.c:208-210): the sum of
`abs((int8_t) byte)` over all its bytes, the predictor byte included. -/
def rowCost (row : List Nat) : Nat := (row.map int8abs).sum

/-- The champion-tracking recursion of the mixed-mode loop
(pngenc.c:205-215): each candidate predictor in turn replaces the champion
exactly when its cost is strictly smaller (`cost < bcost`). -/
def mixedScan (f : Nat → List Nat) (best : Nat) : List Nat → Nat
  | [] => best
  | p :: rest => mixedScan f (if rowCost (f p) < rowCost (f best) then p else best) rest

/-- Model of `png_choose_filter` (pngenc.c:194-222).  With no top row any
non-zero predictor is forced to SUB (`if (!top && pred) pred = SUB`), so the
mixed search only runs when a top row exists; the mixed search tries
predictors 0..4 seeded with `bcost = INT_MAX` (so predictor 0 always becomes
the first champion) and returns the champion row.  Filters that read `top`
are never reached with `top = none`, so a zero row stands in for the null
pointer there. -/
def png_choose_filter (filterType : Nat) (src : Nat → Nat) (top : Option (Nat → Nat))
    (bpp size : Nat) : List Nat :=
  match top with
  | none => rowWithFilter (if filterType = 0 then 0 else 1) src (fun _ => 0) bpp size
  | some t =>
      if filterType = 5 then
        rowWithFilter (mixedScan (fun p => rowWithFilter p src t bpp size) 0 [1, 2, 3, 4])
          src t bpp size
      else rowWithFilter filterType src t bpp size

theorem paethPredict_eq_specRef (a b c : Nat) : paethPredict a b c = paethSpecRef a b c := by
  unfold paethPredict paethSpecRef
  have h1 : ((a : Int) + b - c) - a = (b : Int) - c := by ring
  have h2 : ((a : Int) + b - c) - b = (a : Int) - c := by ring
  have h3 : ((a : Int) + b - c) - c = ((b : Int) - c) + ((a : Int) - c) := by ring
  rw [h1, h2, h3]

theorem paethPredict_min (a b c : Nat) :
    (((a : Int) + b - c) - paethPredict a b c).natAbs ≤ (((a : Int) + b - c) - a).natAbs ∧
    (((a : Int) + b - c) - paethPredict a b c).natAbs ≤ (((a : Int) + b - c) - b).natAbs ∧
    (((a : Int) + b - c) - paethPredict a b c).natAbs ≤ (((a : Int) + b - c) - c).natAbs := by
  rw [paethPredict_eq_specRef]
  unfold paethSpecRef
  split_ifs with h1 h2 <;> push_neg at * <;> omega

/-- C6: for indexes `i >= bpp` the PAETH-filtered byte is `src[i]` minus
whichever of `a = src[i-bpp]`, `b = top[i]`, `c = top[i-bpp]` is closest to
`p = a + b - c` (ties in the order `a`, `b`, `c`, as `paethSpecRef` states);
the chosen predictor's distance to `p` is minimal among the three; for the
first `bpp` bytes the output is `src[i] - top[i]`; and on the concrete tie
row `[10, 10]` over top `[10, 10]` with `bpp = 1` the predictor picks `a`
and the filtered byte at index 1 is 0. -/
theorem C6_paeth_row (src top : Nat → Nat) (bpp i : Nat) :
    (png_filter_row 4 src top bpp i
      = if i < bpp then byteSub (src i) (top i)
        else byteSub (src i) (paethSpecRef (src (i - bpp)) (top i) (top (i - bpp)))) ∧
    (∀ a b c : Nat,
      (((a : Int) + b - c) - paethPredict a b c).natAbs ≤ (((a : Int) + b - c) - a).natAbs ∧
      (((a : Int) + b - c) - paethPredict a b c).natAbs ≤ (((a : Int) + b - c) - b).natAbs ∧
      (((a : Int) + b - c) - paethPredict a b c).natAbs ≤ (((a : Int) + b - c) - c).natAbs) ∧
    paethPredict 10 10 10 = 10 ∧
    png_filter_row 4 (fun _ => 10) (fun _ => 10) 1 1 = 0 := by
  refine ⟨?_, paethPredict_min, by decide, by decide⟩
  unfold png_filter_row
  split_ifs <;> simp_all [paethPredict_eq_specRef]

theorem mixedScan_spec (f : Nat → List Nat) (l : List Nat) :
    ∀ best : Nat, (∀ p ∈ l, best < p) → l.Pairwise (· < ·) →
      (mixedScan f best l = best ∨
        (mixedScan f best l ∈ l ∧ rowCost (f (mixedScan f best l)) < rowCost (f best))) ∧
      (∀ p, (p = best ∨ p ∈ l) → rowCost (f (mixedScan f best l)) ≤ rowCost (f p)) ∧
      (∀ p, (p = best ∨ p ∈ l) → rowCost (f p) = rowCost (f (mixedScan f best l)) →
        mixedScan f best l ≤ p) := by
  induction l with
  | nil =>
      intro best _ _
      refine ⟨Or.inl rfl, ?_, ?_⟩
      · rintro p (rfl | h)
        · simp [mixedScan]
        · cases h
      · rintro p (rfl | h) _
        · simp [mixedScan]
        · cases h
  | cons p0 rest ih =>
      intro best hbest hpw
      have hb0 : best < p0 := hbest p0 (List.mem_cons_self _ _)
      have hrest_gt : ∀ p ∈ rest, p0 < p := (List.pairwise_cons.mp hpw).1
      have hpw' : rest.Pairwise (· < ·) := (List.pairwise_cons.mp hpw).2
      by_cases hlt : rowCost (f p0) < rowCost (f best)
      · have hscan : mixedScan f best (p0 :: rest) = mixedScan f p0 rest := by
          simp [mixedScan, hlt]
        obtain ⟨ha, hmin, htie⟩ := ih p0 hrest_gt hpw'
        rw [hscan]
        refine ⟨?_, ?_, ?_⟩
        · rcases ha with h | ⟨hm, hc⟩
          · exact Or.inr ⟨by rw [h]; exact List.mem_cons_self _ _, by rw [h]; exact hlt⟩
          · exact Or.inr ⟨List.mem_cons_of_mem _ hm, lt_trans hc hlt⟩
        · rintro p (rfl | hp)
          · exact le_of_lt (lt_of_le_of_lt (hmin p0 (Or.inl rfl)) hlt)
          · rcases List.mem_cons.mp hp with rfl | hp'
            · exact hmin p (Or.inl rfl)
            · exact hmin p (Or.inr hp')
        · rintro p (rfl | hp) hceq
          · have h1 := hmin p0 (Or.inl rfl)
            omega
          · rcases List.mem_cons.mp hp with rfl | hp'
            · exact htie p (Or.inl rfl) hceq
            · exact htie p (Or.inr hp') hceq
      · have hscan : mixedScan f best (p0 :: rest) = mixedScan f best rest := by
          simp [mixedScan, hlt]
        have hbest' : ∀ p ∈ rest, best < p := fun p hp => hbest p (List.mem_cons_of_mem _ hp)
        obtain ⟨ha, hmin, htie⟩ := ih best hbest' hpw'
        rw [hscan]
        refine ⟨?_, ?_, ?_⟩
        · rcases ha with h | ⟨hm, hc⟩
          · exact Or.inl h
          · exact Or.inr ⟨List.mem_cons_of_mem _ hm, hc⟩
        · rintro p (rfl | hp)
          · exact hmin p (Or.inl rfl)
          · rcases List.mem_cons.mp hp with rfl | hp'
            · exact le_trans (hmin best (Or.inl rfl)) (not_lt.mp hlt)
            · exact hmin p (Or.inr hp')
        · rintro p (rfl | hp) hceq
          · exact htie p (Or.inl rfl) hceq
          · rcases List.mem_cons.mp hp with rfl | hp'
            · rcases ha with h | ⟨_, hc⟩
              · rw [h]; exact le_of_lt hb0
              · have h1 := not_lt.mp hlt
                omega
            · exact htie p (Or.inr hp') hceq

/-- C1 (amended): on every scanline that has a top row, mixed mode tries all
five predictors, returns the row (predictor byte then filtered bytes) whose
signed-magnitude cost is minimal, and resolves cost ties in favour of the
smaller predictor id; on a scanline with no top row the mixed search is
bypassed and the SUB predictor is applied unconditionally. -/
theorem C1_mixed_minimal (src top : Nat → Nat) (bpp size p : Nat) :
    png_choose_filter 5 src none bpp size = rowWithFilter 1 src (fun _ => 0) bpp size ∧
    png_choose_filter 5 src (some top) bpp size
      = rowWithFilter ((png_choose_filter 5 src (some top) bpp size).headD 0)
          src top bpp size ∧
    (png_choose_filter 5 src (some top) bpp size).headD 0 < 5 ∧
    (p < 5 → rowCost (png_choose_filter 5 src (some top) bpp size)
        ≤ rowCost (rowWithFilter p src top bpp size)) ∧
    (p < 5 → rowCost (rowWithFilter p src top bpp size)
          = rowCost (png_choose_filter 5 src (some top) bpp size) →
      (png_choose_filter 5 src (some top) bpp size).headD 0 ≤ p) := by
  obtain ⟨ha, hmin, htie⟩ :=
    mixedScan_spec (fun q => rowWithFilter q src top bpp size) [1, 2, 3, 4] 0
      (by decide) (by decide)
  have hchoose : png_choose_filter 5 src (some top) bpp size
      = rowWithFilter (mixedScan (fun q => rowWithFilter q src top bpp size) 0 [1, 2, 3, 4])
          src top bpp size := by
    simp [png_choose_filter]
  have hhead : (png_choose_filter 5 src (some top) bpp size).headD 0
      = mixedScan (fun q => rowWithFilter q src top bpp size) 0 [1, 2, 3, 4] := by
    rw [hchoose]; rfl
  have hmem : ∀ q : Nat, q < 5 → q = 0 ∨ q ∈ [1, 2, 3, 4] := by
    intro q hq
    interval_cases q <;> simp
  refine ⟨by simp [png_choose_filter], by rw [hhead, hchoose], ?_, ?_, ?_⟩
  · rw [hhead]
    rcases ha with h | ⟨hm, _⟩
    · omega
    · simp only [List.mem_cons, List.not_mem_nil, or_false] at hm
      rcases hm with h | h | h | h <;> omega
  · intro hp
    rw [hchoose]
    exact hmin p (hmem p hp)
  · intro hp hceq
    rw [hhead]
    rw [hchoose] at hceq
    exact htie p (hmem p hp) hceq

/-- C1 counterexample: on the first scanline (no top row) the mixed search
is not run at all; the SUB row is returned even though the NONE row has a
strictly smaller signed-magnitude cost, so the claim as stated (all five
predictors tried on every scanline, minimal cost always chosen) is false. -/
theorem C1_counterexample :
    png_choose_filter 5 (fun _ => 255) none 1 1
      = rowWithFilter 1 (fun _ => 255) (fun _ => 0) 1 1 ∧
    rowCost (rowWithFilter 0 (fun _ => 255) (fun _ => 0) 1 1)
      < rowCost (png_choose_filter 5 (fun _ => 255) none 1 1) := by
  decide

/-! ## apng_do_inverse_blend: bounding box of changed pixels -/

/-- The four bounding-box accumulators of `apng_do_inverse_blend`
(pngenc.c:576-579). -/
structure BBox where
  leftmost : Nat
  rightmost : Nat
  topmost : Nat
  bottommost : Nat
deriving DecidableEq

/-- One differing pixel's effect on the accumulators (pngenc.c:591-598):
`if (x < leftmost_x) leftmost_x = x; if (x >= rightmost_x) rightmost_x = x+1;`
and likewise for the row coordinates. -/
def bboxUpdate (bb : BBox) (y x : Nat) : BBox where
  leftmost := if x < bb.leftmost then x else bb.leftmost
  rightmost := if bb.rightmost ≤ x then x + 1 else bb.rightmost
  topmost := if y < bb.topmost then y else bb.topmost
  bottommost := if bb.bottommost ≤ y then y + 1 else bb.bottommost

/-- The scan order of the double loop (pngenc.c:586-603): rows outer,
columns inner. -/
def frameCoords (h w : Nat) : List (Nat × Nat) :=
  (List.range h).flatMap (fun y => (List.range w).map (fun x => (y, x)))

/-- A pixel differs when its `bpp` bytes are not byte-equal
(`!memcmp(input_data + bpp*x, output_data + bpp*x, bpp)` is false); a pixel
map returns the pixel's `bpp` bytes. -/
def pixelDiffers (bg fg : Nat → Nat → List Nat) (y x : Nat) : Bool :=
  decide (fg y x ≠ bg y x)

/-- The bounding-box scan of `apng_do_inverse_blend` (pngenc.c:585-603),
seeded with `leftmost = width`, `rightmost = 0`, `topmost = height`,
`bottommost = 0`. -/
def apng_find_bbox (bg fg : Nat → Nat → List Nat) (w h : Nat) : BBox :=
  (frameCoords h w).foldl
    (fun bb c => if pixelDiffers bg fg c.1 c.2 then bboxUpdate bb c.1 c.2 else bb)
    ⟨w, 0, h, 0⟩

/-- The empty-frame rewrite (pngenc.c:605-610): when no pixel differed the
accumulators still hold their seeds, and the box becomes the 1x1 box at
(0,0) because APNG does not support empty frames. -/
def apng_bbox_rewrite (w : Nat) (bb : BBox) : BBox :=
  if bb.leftmost = w ∧ bb.rightmost = 0 then ⟨0, 1, 0, 1⟩ else bb

/-- The fctl-chunk rectangle fields as assigned at pngenc.c:702-707. -/
structure APNGFctlRect where
  width : Nat
  height : Nat
  x_offset : Nat
  y_offset : Nat
deriving DecidableEq

/-- The rectangle committed to the fctl chunk by `apng_do_inverse_blend`:
`width = rightmost - leftmost`, `height = bottommost - topmost`,
`x_offset = leftmost`, `y_offset = topmost` (pngenc.c:702-707). -/
def inverse_blend_rect (bg fg : Nat → Nat → List Nat) (w h : Nat) : APNGFctlRect :=
  let bb := apng_bbox_rewrite w (apng_find_bbox bg fg w h)
  ⟨bb.rightmost - bb.leftmost, bb.bottommost - bb.topmost, bb.leftmost, bb.topmost⟩

theorem foldl_if_filter {α β : Type} (g : β → α → β) (P : α → Bool) (l : List α) :
    ∀ init : β, l.foldl (fun acc c => if P c then g acc c else acc) init
      = (l.filter P).foldl g init := by
  induction l with
  | nil => intro init; rfl
  | cons c rest ih =>
      intro init
      by_cases h : P c <;> simp [List.filter_cons, h, ih]

theorem bboxUpdate_fields (bb : BBox) (y x : Nat) :
    bboxUpdate bb y x
      = ⟨min bb.leftmost x, max bb.rightmost (x + 1),
         min bb.topmost y, max bb.bottommost (y + 1)⟩ := by
  unfold bboxUpdate
  simp only [BBox.mk.injEq]
  refine ⟨?_, ?_, ?_, ?_⟩ <;> split_ifs <;> omega

theorem bbox_foldl_eq (ds : List (Nat × Nat)) :
    ∀ bb : BBox, ds.foldl (fun b c => bboxUpdate b c.1 c.2) bb
      = ⟨(ds.map Prod.snd).foldl min bb.leftmost,
         (ds.map (fun c => c.2 + 1)).foldl max bb.rightmost,
         (ds.map Prod.fst).foldl min bb.topmost,
         (ds.map (fun c => c.1 + 1)).foldl max bb.bottommost⟩ := by
  induction ds with
  | nil => intro bb; cases bb; rfl
  | cons c rest ih =>
      intro bb
      rw [List.foldl_cons, ih, bboxUpdate_fields]
      simp [List.foldl_cons]

theorem foldl_min_le_init (l : List Nat) : ∀ a, l.foldl min a ≤ a := by
  induction l with
  | nil => intro a; exact le_refl a
  | cons x rest ih =>
      intro a
      exact le_trans (ih (min a x)) (min_le_left a x)

theorem foldl_min_le_mem (l : List Nat) : ∀ a x, x ∈ l → l.foldl min a ≤ x := by
  induction l with
  | nil => intro a x hx; cases hx
  | cons c rest ih =>
      intro a x hx
      rcases List.mem_cons.mp hx with rfl | hx'
      · exact le_trans (foldl_min_le_init rest (min a x)) (min_le_right a x)
      · exact ih (min a c) x hx'

theorem foldl_min_cases (l : List Nat) : ∀ a, l.foldl min a = a ∨ l.foldl min a ∈ l := by
  induction l with
  | nil => intro a; exact Or.inl rfl
  | cons c rest ih =>
      intro a
      rcases ih (min a c) with h | h
      · rcases Nat.le_total a c with hac | hca
        · exact Or.inl (by rw [List.foldl_cons, h, min_eq_left hac])
        · exact Or.inr (by rw [List.foldl_cons, h, min_eq_right hca]; exact List.mem_cons_self _ _)
      · exact Or.inr (List.mem_cons_of_mem _ h)

theorem foldl_max_init_le (l : List Nat) : ∀ a, a ≤ l.foldl max a := by
  induction l with
  | nil => intro a; exact le_refl a
  | cons x rest ih =>
      intro a
      exact le_trans (le_max_left a x) (ih (max a x))

theorem foldl_max_mem_le (l : List Nat) : ∀ a x, x ∈ l → x ≤ l.foldl max a := by
  induction l with
  | nil => intro a x hx; cases hx
  | cons c rest ih =>
      intro a x hx
      rcases List.mem_cons.mp hx with rfl | hx'
      · exact le_trans (le_max_right a x) (foldl_max_init_le rest (max a x))
      · exact ih (max a c) x hx'

theorem foldl_max_cases (l : List Nat) : ∀ a, l.foldl max a = a ∨ l.foldl max a ∈ l := by
  induction l with
  | nil => intro a; exact Or.inl rfl
  | cons c rest ih =>
      intro a
      rcases ih (max a c) with h | h
      · rcases Nat.le_total a c with hac | hca
        · exact Or.inr (by rw [List.foldl_cons, h, max_eq_right hac]; exact List.mem_cons_self _ _)
        · exact Or.inl (by rw [List.foldl_cons, h, max_eq_left hca])
      · exact Or.inr (List.mem_cons_of_mem _ h)

theorem mem_frameCoords (h w y x : Nat) : (y, x) ∈ frameCoords h w ↔ y < h ∧ x < w := by
  simp only [frameCoords, List.mem_flatMap, List.mem_map, List.mem_range, Prod.mk.injEq]
  constructor
  · rintro ⟨y', hy', x', hx', rfl, rfl⟩
    exact ⟨hy', hx'⟩
  · rintro ⟨hy, hx⟩
    exact ⟨y, hy, x, hx, rfl, rfl⟩

/-! ## apng_do_inverse_blend: blending -/

/-- The pixel formats distinguished by `apng_do_inverse_blend`'s two
switches (pngenc.c:625-642, 667-695).  `noAlpha` stands for every other
format, which hits the `default:` arm of the first switch. -/
inductive PixFmt
  | rgba64be
  | ya16be
  | rgba
  | gray8a
  | pal8
  | noAlpha
deriving DecidableEq

/-- APNG blend operators (APNG_BLEND_OP_SOURCE = 0, APNG_BLEND_OP_OVER = 1). -/
inductive BlendOp
  | source
  | over
deriving DecidableEq

/-- The transparent-palette-entry search of the PAL8 arm (pngenc.c:633-636):
the first index below 256 whose palette entry has zero alpha
(`palette[i] >> 24 == 0`), or 256 when none exists. -/
def findTransparentFrom (palette : Nat → Nat) (i : Nat) : Nat :=
  if h : i < 256 then
    if palette i / 2 ^ 24 = 0 then i else findTransparentFrom palette (i + 1)
  else i
termination_by 256 - i

/-- One pixel of the OVER inverse-blend loop (pngenc.c:648-698).  Equal
pixels become a transparent pixel: the transparent palette index for PAL8
(failing when `tpi = 256`, i.e. no transparent entry exists), `bpp` zero
bytes otherwise.  Differing pixels are copied verbatim when the foreground
alpha is at its maximum or the background alpha is zero (the 16-bit formats
compare a native uint16 against 0xffff / 0, which holds exactly when both
bytes are 0xff / 0), and otherwise fail the candidate (`return -1`).  The
`noAlpha` arm is unreachable here (the format dispatch already failed the
candidate); the C switch would fall through to the verbatim copy. -/
def over_blend_pixel (fmt : PixFmt) (palette : Nat → Nat) (tpi bpp : Nat)
    (fg bg : List Nat) : Option (List Nat) :=
  if fg = bg then
    match fmt with
    | .pal8 => if tpi = 256 then none else some [tpi]
    | _ => some (List.replicate bpp 0)
  else
    match fmt with
    | .rgba64be =>
        if (fg.getD 6 0 = 255 ∧ fg.getD 7 0 = 255) ∨ (bg.getD 6 0 = 0 ∧ bg.getD 7 0 = 0)
        then some fg else none
    | .ya16be =>
        if (fg.getD 2 0 = 255 ∧ fg.getD 3 0 = 255) ∨ (bg.getD 2 0 = 0 ∧ bg.getD 3 0 = 0)
        then some fg else none
    | .rgba => if fg.getD 3 0 = 255 ∨ bg.getD 3 0 = 0 then some fg else none
    | .gray8a => if fg.getD 1 0 = 255 ∨ bg.getD 1 0 = 0 then some fg else none
    | .pal8 =>
        if palette (fg.getD 0 0) / 2 ^ 24 = 255 ∨ palette (bg.getD 0 0) / 2 ^ 24 = 0
        then some fg else none
    | .noAlpha => some fg

/-- The OVER loop over the bounding box (pngenc.c:644-699), row-major; the
whole candidate fails as soon as one pixel fails. -/
def over_blend_rows (fmt : PixFmt) (palette : Nat → Nat) (tpi bpp : Nat)
    (bg fg : Nat → Nat → List Nat) (bb : BBox) : Option (List (List (List Nat))) :=
  (List.range (bb.bottommost - bb.topmost)).mapM (fun dy =>
    (List.range (bb.rightmost - bb.leftmost)).mapM (fun dx =>
      over_blend_pixel fmt palette tpi bpp
        (fg (bb.topmost + dy) (bb.leftmost + dx))
        (bg (bb.topmost + dy) (bb.leftmost + dx))))

/-- The SOURCE branch (pngenc.c:613-620): the bounding box is overwritten
row by row with the corresponding foreground bytes; it cannot fail. -/
def source_blend_rows (fg : Nat → Nat → List Nat) (bb : BBox) : List (List (List Nat)) :=
  (List.range (bb.bottommost - bb.topmost)).map (fun dy =>
    (List.range (bb.rightmost - bb.leftmost)).map (fun dx =>
      fg (bb.topmost + dy) (bb.leftmost + dx)))

/-- Model of `apng_do_inverse_blend` (pngenc.c:569-710): compute the
bounding box of differing pixels (1x1 at the origin when none differ), then
blend.  SOURCE always succeeds; OVER fails outright for formats without an
alpha channel (`default: return -1`) and otherwise pixel by pixel.  On
success the fctl rectangle fields are set from the box (pngenc.c:702-707). -/
def apng_do_inverse_blend (blend : BlendOp) (fmt : PixFmt) (palette : Nat → Nat)
    (bg fg : Nat → Nat → List Nat) (w h bpp : Nat) :
    Option (APNGFctlRect × List (List (List Nat))) :=
  let bb := apng_bbox_rewrite w (apng_find_bbox bg fg w h)
  match blend with
  | .source =>
      some (⟨bb.rightmost - bb.leftmost, bb.bottommost - bb.topmost,
             bb.leftmost, bb.topmost⟩, source_blend_rows fg bb)
  | .over =>
      match fmt with
      | .noAlpha => none
      | _ =>
          let tpi := if fmt = .pal8 then findTransparentFrom palette 0 else 0
          (over_blend_rows fmt palette tpi bpp bg fg bb).map
            (fun rows => (⟨bb.rightmost - bb.leftmost, bb.bottommost - bb.topmost,
                           bb.leftmost, bb.topmost⟩, rows))

/-- Modelled from the spec's words, for comparison with the byte tests of
`over_blend_pixel`: the value of a pixel's alpha channel (big-endian for the
16-bit formats, via the palette for PAL8). -/
def alpha_channel_value (fmt : PixFmt) (palette : Nat → Nat) (px : List Nat) : Nat :=
  match fmt with
  | .rgba64be => px.getD 6 0 * 256 + px.getD 7 0
  | .ya16be => px.getD 2 0 * 256 + px.getD 3 0
  | .rgba => px.getD 3 0
  | .gray8a => px.getD 1 0
  | .pal8 => palette (px.getD 0 0) / 2 ^ 24
  | .noAlpha => 0

/-- The maximum value of the alpha channel for each format. -/
def alpha_channel_max (fmt : PixFmt) : Nat :=
  match fmt with
  | .rgba64be | .ya16be => 65535
  | _ => 255

theorem inverse_blend_rect_char (bg fg : Nat → Nat → List Nat) (w h : Nat) :
    (∀ y x, y < h → x < w → fg y x ≠ bg y x →
      (inverse_blend_rect bg fg w h).x_offset ≤ x ∧
      x < (inverse_blend_rect bg fg w h).x_offset + (inverse_blend_rect bg fg w h).width ∧
      (inverse_blend_rect bg fg w h).y_offset ≤ y ∧
      y < (inverse_blend_rect bg fg w h).y_offset + (inverse_blend_rect bg fg w h).height) ∧
    ((∃ y x, y < h ∧ x < w ∧ fg y x ≠ bg y x) →
      (∃ y x, y < h ∧ x < w ∧ fg y x ≠ bg y x ∧
        x = (inverse_blend_rect bg fg w h).x_offset) ∧
      (∃ y x, y < h ∧ x < w ∧ fg y x ≠ bg y x ∧
        x + 1 = (inverse_blend_rect bg fg w h).x_offset + (inverse_blend_rect bg fg w h).width) ∧
      (∃ y x, y < h ∧ x < w ∧ fg y x ≠ bg y x ∧
        y = (inverse_blend_rect bg fg w h).y_offset) ∧
      (∃ y x, y < h ∧ x < w ∧ fg y x ≠ bg y x ∧
        y + 1 = (inverse_blend_rect bg fg w h).y_offset + (inverse_blend_rect bg fg w h).height)) ∧
    ((∀ y x, y < h → x < w → fg y x = bg y x) → inverse_blend_rect bg fg w h = ⟨1, 1, 0, 0⟩) ∧
    0 < (inverse_blend_rect bg fg w h).width ∧ 0 < (inverse_blend_rect bg fg w h).height := by
  classical
  set ds := (frameCoords h w).filter (fun c => pixelDiffers bg fg c.1 c.2) with hds
  have hfold : apng_find_bbox bg fg w h
      = ⟨(ds.map Prod.snd).foldl min w,
         (ds.map (fun c => c.2 + 1)).foldl max 0,
         (ds.map Prod.fst).foldl min h,
         (ds.map (fun c => c.1 + 1)).foldl max 0⟩ := by
    unfold apng_find_bbox
    rw [foldl_if_filter (fun bb (c : Nat × Nat) => bboxUpdate bb c.1 c.2)
      (fun c => pixelDiffers bg fg c.1 c.2), bbox_foldl_eq]
  have hmemds : ∀ c : Nat × Nat, c ∈ ds ↔ c.1 < h ∧ c.2 < w ∧ fg c.1 c.2 ≠ bg c.1 c.2 := by
    rintro ⟨y, x⟩
    rw [hds, List.mem_filter, mem_frameCoords]
    simp [pixelDiffers, and_assoc]
  by_cases hex : ∃ y x, y < h ∧ x < w ∧ fg y x ≠ bg y x
  · obtain ⟨y0, x0, hy0, hx0, hne0⟩ := hex
    have hmem0 : (y0, x0) ∈ ds := (hmemds _).mpr ⟨hy0, hx0, hne0⟩
    have hlm_le : (ds.map Prod.snd).foldl min w ≤ x0 :=
      foldl_min_le_mem _ _ _ (List.mem_map_of_mem _ hmem0)
    have hrm_ge : x0 + 1 ≤ (ds.map (fun c => c.2 + 1)).foldl max 0 :=
      foldl_max_mem_le _ _ _ (List.mem_map_of_mem _ hmem0)
    have htm_le : (ds.map Prod.fst).foldl min h ≤ y0 :=
      foldl_min_le_mem _ _ _ (List.mem_map_of_mem _ hmem0)
    have hbm_ge : y0 + 1 ≤ (ds.map (fun c => c.1 + 1)).foldl max 0 :=
      foldl_max_mem_le _ _ _ (List.mem_map_of_mem _ hmem0)
    have hrw : apng_bbox_rewrite w (apng_find_bbox bg fg w h) = apng_find_bbox bg fg w h := by
      unfold apng_bbox_rewrite
      rw [if_neg]
      rw [hfold]
      rintro ⟨h1, _⟩
      simp only at h1
      omega
    have hrect : inverse_blend_rect bg fg w h
        = ⟨(ds.map (fun c => c.2 + 1)).foldl max 0 - (ds.map Prod.snd).foldl min w,
           (ds.map (fun c => c.1 + 1)).foldl max 0 - (ds.map Prod.fst).foldl min h,
           (ds.map Prod.snd).foldl min w,
           (ds.map Prod.fst).foldl min h⟩ := by
      unfold inverse_blend_rect
      rw [hrw, hfold]
    rw [hrect]
    refine ⟨?_, ?_, ?_, ?_, ?_⟩
    · intro y x hy hx hne
      have hmem : (y, x) ∈ ds := (hmemds _).mpr ⟨hy, hx, hne⟩
      have h1 : (ds.map Prod.snd).foldl min w ≤ x :=
        foldl_min_le_mem _ _ _ (List.mem_map_of_mem _ hmem)
      have h2 : x + 1 ≤ (ds.map (fun c => c.2 + 1)).foldl max 0 :=
        foldl_max_mem_le _ _ _ (List.mem_map_of_mem _ hmem)
      have h3 : (ds.map Prod.fst).foldl min h ≤ y :=
        foldl_min_le_mem _ _ _ (List.mem_map_of_mem _ hmem)
      have h4 : y + 1 ≤ (ds.map (fun c => c.1 + 1)).foldl max 0 :=
        foldl_max_mem_le _ _ _ (List.mem_map_of_mem _ hmem)
      simp only
      omega
    · intro _
      refine ⟨?_, ?_, ?_, ?_⟩
      · rcases foldl_min_cases (ds.map Prod.snd) w with hc | hc
        · omega
        · obtain ⟨c, hcds, hc2⟩ := List.mem_map.mp hc
          obtain ⟨hch, hcw, hcne⟩ := (hmemds c).mp hcds
          refine ⟨c.1, c.2, hch, hcw, hcne, ?_⟩
          simp only
          omega
      · rcases foldl_max_cases (ds.map (fun c => c.2 + 1)) 0 with hc | hc
        · omega
        · obtain ⟨c, hcds, hc2⟩ := List.mem_map.mp hc
          obtain ⟨hch, hcw, hcne⟩ := (hmemds c).mp hcds
          refine ⟨c.1, c.2, hch, hcw, hcne, ?_⟩
          simp only
          omega
      · rcases foldl_min_cases (ds.map Prod.fst) h with hc | hc
        · omega
        · obtain ⟨c, hcds, hc2⟩ := List.mem_map.mp hc
          obtain ⟨hch, hcw, hcne⟩ := (hmemds c).mp hcds
          refine ⟨c.1, c.2, hch, hcw, hcne, ?_⟩
          simp only
          omega
      · rcases foldl_max_cases (ds.map (fun c => c.1 + 1)) 0 with hc | hc
        · omega
        · obtain ⟨c, hcds, hc2⟩ := List.mem_map.mp hc
          obtain ⟨hch, hcw, hcne⟩ := (hmemds c).mp hcds
          refine ⟨c.1, c.2, hch, hcw, hcne, ?_⟩
          simp only
          omega
    · intro hall
      exact absurd (hall y0 x0 hy0 hx0) hne0
    · simp only
      omega
    · simp only
      omega
  · have hdsnil : ds = [] := by
      rw [hds, List.filter_eq_nil_iff]
      rintro ⟨y, x⟩ hc
      rw [mem_frameCoords] at hc
      simp only [pixelDiffers, decide_eq_true_eq]
      push_neg at hex
      intro hne
      exact hne (hex y x hc.1 hc.2)
    have hrect : inverse_blend_rect bg fg w h = ⟨1, 1, 0, 0⟩ := by
      unfold inverse_blend_rect
      rw [hfold, hdsnil]
      unfold apng_bbox_rewrite
      simp
    refine ⟨?_, ?_, fun _ => hrect, ?_, ?_⟩
    · intro y x hy hx hne
      exact absurd ⟨y, x, hy, hx, hne⟩ hex
    · intro hex'
      exact absurd hex' hex
    · rw [hrect]
      exact Nat.one_pos
    · rw [hrect]
      exact Nat.one_pos

/-- C2: apng_do_inverse_blend computes the fctl rectangle as the minimal
bounding rectangle of the pixels where foreground and background differ
(byte inequality over the bpp bytes): every differing pixel lies inside it
and each of its four edges is attained by some differing pixel; when no
pixel differs the rectangle is rewritten to 1x1 at offsets (0, 0); the
rectangle is never zero-sized.  The SOURCE run shown always completes and
returns exactly this rectangle. -/
theorem C2_bounding_rect (fmt : PixFmt) (palette : Nat → Nat)
    (bg fg : Nat → Nat → List Nat) (w h bpp : Nat) :
    apng_do_inverse_blend BlendOp.source fmt palette bg fg w h bpp
      = some (inverse_blend_rect bg fg w h,
          source_blend_rows fg (apng_bbox_rewrite w (apng_find_bbox bg fg w h))) ∧
    (∀ y x, y < h → x < w → fg y x ≠ bg y x →
      (inverse_blend_rect bg fg w h).x_offset ≤ x ∧
      x < (inverse_blend_rect bg fg w h).x_offset + (inverse_blend_rect bg fg w h).width ∧
      (inverse_blend_rect bg fg w h).y_offset ≤ y ∧
      y < (inverse_blend_rect bg fg w h).y_offset + (inverse_blend_rect bg fg w h).height) ∧
    ((∃ y x, y < h ∧ x < w ∧ fg y x ≠ bg y x) →
      (∃ y x, y < h ∧ x < w ∧ fg y x ≠ bg y x ∧
        x = (inverse_blend_rect bg fg w h).x_offset) ∧
      (∃ y x, y < h ∧ x < w ∧ fg y x ≠ bg y x ∧
        x + 1 = (inverse_blend_rect bg fg w h).x_offset + (inverse_blend_rect bg fg w h).width) ∧
      (∃ y x, y < h ∧ x < w ∧ fg y x ≠ bg y x ∧
        y = (inverse_blend_rect bg fg w h).y_offset) ∧
      (∃ y x, y < h ∧ x < w ∧ fg y x ≠ bg y x ∧
        y + 1 = (inverse_blend_rect bg fg w h).y_offset + (inverse_blend_rect bg fg w h).height)) ∧
    ((∀ y x, y < h → x < w → fg y x = bg y x) → inverse_blend_rect bg fg w h = ⟨1, 1, 0, 0⟩) ∧
    0 < (inverse_blend_rect bg fg w h).width ∧ 0 < (inverse_blend_rect bg fg w h).height := by
  obtain ⟨h1, h2, h3, h4, h5⟩ := inverse_blend_rect_char bg fg w h
  exact ⟨rfl, h1, h2, h3, h4, h5⟩

theorem findTransparentFrom_spec (palette : Nat → Nat) :
    ∀ n i, 256 - i ≤ n → i ≤ 256 →
      ((∃ j, i ≤ j ∧ j < 256 ∧ palette j / 2 ^ 24 = 0) →
        findTransparentFrom palette i < 256 ∧
        palette (findTransparentFrom palette i) / 2 ^ 24 = 0) ∧
      ((∀ j, i ≤ j → j < 256 → palette j / 2 ^ 24 ≠ 0) →
        findTransparentFrom palette i = 256) := by
  intro n
  induction n with
  | zero =>
      intro i hn hle
      have hi : i = 256 := by omega
      subst hi
      constructor
      · rintro ⟨j, hj1, hj2, _⟩
        omega
      · intro _
        rw [findTransparentFrom.eq_def]
        simp
  | succ n ih =>
      intro i hn hle
      by_cases hlt : i < 256
      · by_cases hz : palette i / 2 ^ 24 = 0
        · have heq : findTransparentFrom palette i = i := by
            rw [findTransparentFrom.eq_def, dif_pos hlt, if_pos hz]
          constructor
          · intro _
            rw [heq]
            exact ⟨hlt, hz⟩
          · intro hall
            exact absurd hz (hall i le_rfl hlt)
        · have heq : findTransparentFrom palette i = findTransparentFrom palette (i + 1) := by
            rw [findTransparentFrom.eq_def, dif_pos hlt, if_neg hz]
          obtain ⟨ih1, ih2⟩ := ih (i + 1) (by omega) (by omega)
          constructor
          · rintro ⟨j, hj1, hj2, hj3⟩
            rw [heq]
            refine ih1 ⟨j, ?_, hj2, hj3⟩
            rcases Nat.eq_or_lt_of_le hj1 with rfl | h
            · exact absurd hj3 hz
            · omega
          · intro hall
            rw [heq]
            exact ih2 (fun j hj1 hj2 => hall j (by omega) hj2)
      · have hi : i = 256 := by omega
        subst hi
        constructor
        · rintro ⟨j, hj1, hj2, _⟩
          omega
        · intro _
          rw [findTransparentFrom.eq_def]
          simp

theorem getD_lt_256 (l : List Nat) (hb : ∀ b ∈ l, b < 256) (i : Nat) : l.getD i 0 < 256 := by
  rcases hg : l.get? i with _ | b
  · rw [List.getD_eq_getElem?_getD, ← List.get?_eq_getElem?, hg]
    norm_num
  · rw [List.getD_eq_getElem?_getD, ← List.get?_eq_getElem?, hg]
    exact hb b (List.get?_mem hg)

/-- C4: in the OVER inverse blend, an equal foreground/background pixel
emits a fully transparent pixel (`bpp` zero bytes; for PAL8 the first
palette index with zero alpha, failing when none exists); a differing pixel
is copied verbatim exactly when the foreground alpha channel is at its
maximum or the background alpha channel is zero, and otherwise fails the
candidate; and for a format without an alpha channel the whole OVER
candidate fails immediately. -/
theorem C4_over_blend (fmt : PixFmt) (palette : Nat → Nat) (tpi bpp : Nat)
    (fg bg : List Nat) (hfg : ∀ b ∈ fg, b < 256) (hbg : ∀ b ∈ bg, b < 256) :
    (fg = bg → fmt ≠ PixFmt.pal8 →
      over_blend_pixel fmt palette tpi bpp fg bg = some (List.replicate bpp 0)) ∧
    (fg = bg →
      over_blend_pixel PixFmt.pal8 palette tpi bpp fg bg
        = if tpi = 256 then none else some [tpi]) ∧
    ((∃ j, j < 256 ∧ palette j / 2 ^ 24 = 0) →
      findTransparentFrom palette 0 < 256 ∧
      palette (findTransparentFrom palette 0) / 2 ^ 24 = 0) ∧
    ((∀ j, j < 256 → palette j / 2 ^ 24 ≠ 0) → findTransparentFrom palette 0 = 256) ∧
    (fg ≠ bg → fmt ≠ PixFmt.noAlpha →
      over_blend_pixel fmt palette tpi bpp fg bg
        = if alpha_channel_value fmt palette fg = alpha_channel_max fmt ∨
             alpha_channel_value fmt palette bg = 0
          then some fg else none) ∧
    (∀ (bgf fgf : Nat → Nat → List Nat) (w h : Nat),
      apng_do_inverse_blend BlendOp.over PixFmt.noAlpha palette bgf fgf w h bpp = none) := by
  refine ⟨?_, ?_, ?_, ?_, ?_, ?_⟩
  · intro heq hnp
    unfold over_blend_pixel
    rw [if_pos heq]
    cases fmt <;> simp_all
  · intro heq
    unfold over_blend_pixel
    rw [if_pos heq]
  · intro hex
    refine (findTransparentFrom_spec palette 256 0 (by omega) (by omega)).1 ?_
    obtain ⟨j, hj1, hj2⟩ := hex
    exact ⟨j, Nat.zero_le j, hj1, hj2⟩
  · intro hall
    exact (findTransparentFrom_spec palette 256 0 (by omega) (by omega)).2
      (fun j _ hj2 => hall j hj2)
  · intro hne hna
    unfold over_blend_pixel
    rw [if_neg hne]
    cases fmt with
    | rgba64be =>
        have h1 := getD_lt_256 fg hfg 6
        have h2 := getD_lt_256 fg hfg 7
        have h3 := getD_lt_256 bg hbg 6
        have h4 := getD_lt_256 bg hbg 7
        refine if_congr ?_ rfl rfl
        simp only [alpha_channel_value, alpha_channel_max]
        omega
    | ya16be =>
        have h1 := getD_lt_256 fg hfg 2
        have h2 := getD_lt_256 fg hfg 3
        have h3 := getD_lt_256 bg hbg 2
        have h4 := getD_lt_256 bg hbg 3
        refine if_congr ?_ rfl rfl
        simp only [alpha_channel_value, alpha_channel_max]
        omega
    | rgba => rfl
    | gray8a => rfl
    | pal8 => rfl
    | noAlpha => exact absurd rfl hna
  · intro bgf fgf w h
    simp [apng_do_inverse_blend]

/-- C4 witness: the theorem applied at a concrete RGBA pixel pair whose
byte bounds are discharged by evaluation. -/
theorem C4_over_blend_witness :
    over_blend_pixel PixFmt.rgba (fun _ => 0) 0 4 [1, 2, 3, 255] [9, 9, 9, 8]
      = (if alpha_channel_value PixFmt.rgba (fun _ => 0) [1, 2, 3, 255]
             = alpha_channel_max PixFmt.rgba ∨
           alpha_channel_value PixFmt.rgba (fun _ => 0) [9, 9, 9, 8] = 0
         then some [1, 2, 3, 255] else none) :=
  (C4_over_blend PixFmt.rgba (fun _ => 0) 0 4 [1, 2, 3, 255] [9, 9, 9, 8]
    (by decide) (by decide)).2.2.2.2.1 (by decide) (by decide)

/-! ## apng_encode_frame: the candidate search -/

/-- The six (dispose_op, blend_op) candidates of `apng_encode_frame`'s
search (pngenc.c:757-764), dispose outer (NONE = 0, BACKGROUND = 1,
PREVIOUS = 2), blend inner (SOURCE then OVER). -/
def candPairs : List (Nat × BlendOp) :=
  [(0, BlendOp.source), (0, BlendOp.over),
   (1, BlendOp.source), (1, BlendOp.over),
   (2, BlendOp.source), (2, BlendOp.over)]

/-- One iteration of the candidate loop (pngenc.c:757-825): a PREVIOUS
candidate is skipped when no `prev_frame` exists (pngenc.c:784-786), a
candidate whose inverse blend returns a negative value is skipped
(pngenc.c:795-797), and a successful candidate replaces the champion
exactly when its encoded byte size is strictly smaller
(`bytestream_size < best_bytestream_size`, seeded with SIZE_MAX, so the
first success always becomes champion). -/
def apng_candidate_step {α : Type} (hasPrev : Bool)
    (blendResult : Nat → BlendOp → Option α) (size : Nat → BlendOp → Nat)
    (best : Option (Nat × BlendOp × Nat)) (c : Nat × BlendOp) :
    Option (Nat × BlendOp × Nat) :=
  if c.1 = 2 ∧ hasPrev = false then best
  else
    match blendResult c.1 c.2 with
    | none => best
    | some _ =>
        match best with
        | none => some (c.1, c.2, size c.1 c.2)
        | some b => if size c.1 c.2 < b.2.2 then some (c.1, c.2, size c.1 c.2) else best

/-- The winning (dispose_op, blend_op, size) of the candidate search, or
none when every candidate was skipped. -/
def apng_encode_frame_search {α : Type} (hasPrev : Bool)
    (blendResult : Nat → BlendOp → Option α) (size : Nat → BlendOp → Nat) :
    Option (Nat × BlendOp × Nat) :=
  candPairs.foldl (apng_candidate_step hasPrev blendResult size) none

theorem apng_candidate_step_some {α : Type} (hasPrev : Bool)
    (blendResult : Nat → BlendOp → Option α) (size : Nat → BlendOp → Nat)
    (b : Nat × BlendOp × Nat) (c : Nat × BlendOp) :
    apng_candidate_step hasPrev blendResult size (some b) c ≠ none := by
  unfold apng_candidate_step
  split_ifs
  · simp
  · rcases blendResult c.1 c.2 with _ | v
    · simp
    · simp only
      split_ifs <;> simp

theorem apng_search_foldl_some {α : Type} (hasPrev : Bool)
    (blendResult : Nat → BlendOp → Option α) (size : Nat → BlendOp → Nat) :
    ∀ (l : List (Nat × BlendOp)) (b : Nat × BlendOp × Nat),
      l.foldl (apng_candidate_step hasPrev blendResult size) (some b) ≠ none := by
  intro l
  induction l with
  | nil => intro b h; cases h
  | cons c rest ih =>
      intro b
      rw [List.foldl_cons]
      rcases hsc : apng_candidate_step hasPrev blendResult size (some b) c with _ | b'
      · exact absurd hsc (apng_candidate_step_some hasPrev blendResult size b c)
      · exact ih b'

/-- C8: the SOURCE branch of apng_do_inverse_blend has no failure path, so
for every pair of same-sized frames it returns a non-negative result; in
apng_encode_frame's candidate search the (NONE, SOURCE) candidate is never
skipped, hence at least one candidate always succeeds and the search always
produces a champion — a failed inverse blend only skips its own candidate
(the `continue`) instead of surfacing as an error. -/
theorem C8_source_candidate (fmt : PixFmt) (palette : Nat → Nat)
    (canvasOf : Nat → Nat → Nat → List Nat) (fg : Nat → Nat → List Nat)
    (w h bpp : Nat) (hasPrev : Bool) (size : Nat → BlendOp → Nat) :
    (∀ d : Nat,
      (apng_do_inverse_blend BlendOp.source fmt palette (canvasOf d) fg w h bpp).isSome
        = true) ∧
    apng_encode_frame_search hasPrev
      (fun d b => apng_do_inverse_blend b fmt palette (canvasOf d) fg w h bpp) size
      ≠ none := by
  constructor
  · intro d
    simp [apng_do_inverse_blend]
  · unfold apng_encode_frame_search candPairs
    rw [List.foldl_cons]
    have hfirst : apng_candidate_step hasPrev
        (fun d b => apng_do_inverse_blend b fmt palette (canvasOf d) fg w h bpp) size
        none (0, BlendOp.source)
        = some (0, BlendOp.source, size 0 BlendOp.source) := by
      unfold apng_candidate_step
      simp [apng_do_inverse_blend]
    rw [hfirst]
    exact apng_search_foldl_some hasPrev _ size _ _

/-! ## Sequence numbers across an APNG encode -/

/-- The chunks that carry a sequence-number field, in stream order.  `idat`
stands for an IDAT chunk (frame 0 data), which carries none. -/
inductive PngChunkRec
  | fctl (seq : Nat)
  | fdat (seq : Nat)
  | idat
deriving DecidableEq

/-- The APNG encoder state relevant to sequence numbering: the
`s->sequence_number` counter and the chunks committed to the output stream,
in final stream order (a frame's fcTL is emitted, on the following call,
directly in front of that frame's image-data chunks). -/
structure ApngStreamState where
  sequence_number : Nat
  stream : List PngChunkRec
deriving DecidableEq

/-- The sequence-number fields of the emitted fcTL and fdAT chunks, in
stream order. -/
def chunkSeqNums (l : List PngChunkRec) : List Nat :=
  l.filterMap (fun c => match c with
    | PngChunkRec.fctl s => some s
    | PngChunkRec.fdat s => some s
    | PngChunkRec.idat => none)

/-- Model of `png_write_image_data` (pngenc.c:243-268) at chunk
granularity: for the still-PNG codec or frame 0 an IDAT chunk is written
and the counter is untouched; otherwise an fdAT carrying the current
`s->sequence_number` is written and the counter incremented once, after the
write. -/
def png_write_image_data_step (isFirstFrame : Bool) (st : ApngStreamState) :
    ApngStreamState :=
  if isFirstFrame then ⟨st.sequence_number, st.stream ++ [PngChunkRec.idat]⟩
  else ⟨st.sequence_number + 1, st.stream ++ [PngChunkRec.fdat st.sequence_number]⟩

/-- Model of `encode_frame`'s image-data output (pngenc.c:431-522): the
DEFLATE loop calls `png_write_image_data` some `k` times. -/
def encode_frame_chunks (isFirstFrame : Bool) (k : Nat) (st : ApngStreamState) :
    ApngStreamState :=
  (png_write_image_data_step isFirstFrame)^[k] st

/-- Model of `apng_encode_frame`'s candidate loop (pngenc.c:757-839) for a
non-initial frame.  Each list entry is one candidate: `none` when it is
skipped (missing prev_frame, or failed inverse blend), `some (k, sz)` when
its encode produced `k` fdAT chunks and `sz` bytes.  Every candidate encode
starts from the original counter, which is restored after it
(pngenc.c:766, 801-804); its chunks go to a scratch buffer.  The champion
is the strictly smallest size (seeded with SIZE_MAX); at the end the
winner's counter value and chunks are committed (pngenc.c:827-831). -/
def apng_encode_frame_seq (cands : List (Option (Nat × Nat))) (st : ApngStreamState) :
    Option ApngStreamState :=
  let best := cands.foldl (fun best c =>
    match c with
    | none => best
    | some kv =>
        let after := encode_frame_chunks false kv.1 ⟨st.sequence_number, []⟩
        match best with
        | none => some (after, kv.2)
        | some b => if kv.2 < b.2 then some (after, kv.2) else best) none
  match best with
  | none => none
  | some b => some ⟨b.1.sequence_number, st.stream ++ b.1.stream⟩

/-- Model of one `encode_apng` call with an input frame (pngenc.c:841-987):
the frame's fcTL takes the current counter and the counter is incremented
once (pngenc.c:906-907); frame 0 then encodes IDAT chunks directly
(pngenc.c:728-735), later frames run the candidate search. -/
def encode_apng_step (st : ApngStreamState) (frameIdx : Nat)
    (cands : List (Option (Nat × Nat))) (k0 : Nat) : Option ApngStreamState :=
  let st1 : ApngStreamState :=
    ⟨st.sequence_number + 1, st.stream ++ [PngChunkRec.fctl st.sequence_number]⟩
  if frameIdx = 0 then some (encode_frame_chunks true k0 st1)
  else apng_encode_frame_seq cands st1

/-- An N-frame APNG encode, frame by frame. -/
def encode_apng_run_from : Nat → ApngStreamState →
    List (List (Option (Nat × Nat)) × Nat) → Option ApngStreamState
  | _, st, [] => some st
  | n, st, fr :: rest =>
      match encode_apng_step st n fr.1 fr.2 with
      | none => none
      | some st' => encode_apng_run_from (n + 1) st' rest

/-- An N-frame APNG encode starting from counter 0 and an empty stream. -/
def encode_apng_run (frames : List (List (Option (Nat × Nat)) × Nat)) :
    Option ApngStreamState :=
  encode_apng_run_from 0 ⟨0, []⟩ frames

theorem chunkSeqNums_append (a b : List PngChunkRec) :
    chunkSeqNums (a ++ b) = chunkSeqNums a ++ chunkSeqNums b := by
  simp [chunkSeqNums, List.filterMap_append]

theorem encode_frame_chunks_false (k : Nat) :
    ∀ (s : Nat) (str : List PngChunkRec),
      encode_frame_chunks false k ⟨s, str⟩
        = ⟨s + k, str ++ (List.range k).map (fun i => PngChunkRec.fdat (s + i))⟩ := by
  induction k with
  | zero => intro s str; simp [encode_frame_chunks]
  | succ k ih =>
      intro s str
      have hit : encode_frame_chunks false (k + 1) ⟨s, str⟩
          = png_write_image_data_step false (encode_frame_chunks false k ⟨s, str⟩) :=
        Function.iterate_succ_apply' _ _ _
      rw [hit, ih]
      unfold png_write_image_data_step
      rw [if_neg (by simp)]
      rw [List.range_succ, List.map_append]
      simp [List.append_assoc, Nat.add_assoc]

theorem encode_frame_chunks_true (k : Nat) :
    ∀ (s : Nat) (str : List PngChunkRec),
      encode_frame_chunks true k ⟨s, str⟩
        = ⟨s, str ++ List.replicate k PngChunkRec.idat⟩ := by
  induction k with
  | zero => intro s str; simp [encode_frame_chunks]
  | succ k ih =>
      intro s str
      have hit : encode_frame_chunks true (k + 1) ⟨s, str⟩
          = png_write_image_data_step true (encode_frame_chunks true k ⟨s, str⟩) :=
        Function.iterate_succ_apply' _ _ _
      rw [hit, ih]
      unfold png_write_image_data_step
      rw [if_pos rfl]
      rw [List.replicate_succ' k]
      simp [List.append_assoc]

theorem chunkSeqNums_fdats (k : Nat) (s : Nat) :
    chunkSeqNums ((List.range k).map (fun i => PngChunkRec.fdat (s + i)))
      = (List.range k).map (fun i => s + i) := by
  induction k with
  | zero => rfl
  | succ k ih =>
      rw [List.range_succ, List.map_append, List.map_append, chunkSeqNums_append, ih]
      rfl

theorem chunkSeqNums_idats (k : Nat) :
    chunkSeqNums (List.replicate k PngChunkRec.idat) = [] := by
  induction k with
  | zero => rfl
  | succ k ih =>
      rw [List.replicate_succ,
        show chunkSeqNums (PngChunkRec.idat :: List.replicate k PngChunkRec.idat)
          = chunkSeqNums (List.replicate k PngChunkRec.idat) from rfl, ih]

theorem apng_encode_frame_seq_char (cands : List (Option (Nat × Nat)))
    (st : ApngStreamState) :
    apng_encode_frame_seq cands st = none ∨
    ∃ k, apng_encode_frame_seq cands st
        = some ⟨st.sequence_number + k,
                st.stream ++ (List.range k).map
                  (fun i => PngChunkRec.fdat (st.sequence_number + i))⟩ := by
  unfold apng_encode_frame_seq
  have hinv : ∀ (l : List (Option (Nat × Nat))) (acc : Option (ApngStreamState × Nat)),
      (acc = none ∨ ∃ k sz,
        acc = some (encode_frame_chunks false k ⟨st.sequence_number, []⟩, sz)) →
      (l.foldl (fun best c =>
        match c with
        | none => best
        | some kv =>
            let after := encode_frame_chunks false kv.1 ⟨st.sequence_number, []⟩
            match best with
            | none => some (after, kv.2)
            | some b => if kv.2 < b.2 then some (after, kv.2) else best) acc = none ∨
      ∃ k sz, l.foldl (fun best c =>
        match c with
        | none => best
        | some kv =>
            let after := encode_frame_chunks false kv.1 ⟨st.sequence_number, []⟩
            match best with
            | none => some (after, kv.2)
            | some b => if kv.2 < b.2 then some (after, kv.2) else best) acc
        = some (encode_frame_chunks false k ⟨st.sequence_number, []⟩, sz)) := by
    intro l
    induction l with
    | nil => intro acc hacc; exact hacc
    | cons c rest ih =>
        intro acc hacc
        rw [List.foldl_cons]
        apply ih
        rcases c with _ | kv
        · exact hacc
        · rcases hacc with rfl | ⟨k, sz, rfl⟩
          · exact Or.inr ⟨kv.1, kv.2, rfl⟩
          · by_cases hsz : kv.2 < sz
            · simp only [hsz, if_pos]
              exact Or.inr ⟨kv.1, kv.2, rfl⟩
            · simp only [hsz, if_neg, if_false]
              exact Or.inr ⟨k, sz, rfl⟩
  rcases hinv cands none (Or.inl rfl) with hnone | ⟨k, sz, hsome⟩
  · rw [hnone]
    exact Or.inl rfl
  · rw [hsome]
    refine Or.inr ⟨k, ?_⟩
    rw [encode_frame_chunks_false]
    simp

theorem encode_apng_step_inv (st st' : ApngStreamState) (n : Nat)
    (cands : List (Option (Nat × Nat))) (k0 : Nat)
    (hinv : chunkSeqNums st.stream = List.range st.sequence_number)
    (hstep : encode_apng_step st n cands k0 = some st') :
    chunkSeqNums st'.stream = List.range st'.sequence_number := by
  have hst1 : chunkSeqNums (st.stream ++ [PngChunkRec.fctl st.sequence_number])
      = List.range (st.sequence_number + 1) := by
    rw [chunkSeqNums_append, hinv, List.range_succ]
    rfl
  unfold encode_apng_step at hstep
  split_ifs at hstep with h0
  · have heq := Option.some.inj hstep
    subst heq
    rw [encode_frame_chunks_true]
    dsimp only
    rw [chunkSeqNums_append, hst1, chunkSeqNums_idats]
    simp
  · rcases apng_encode_frame_seq_char cands
        ⟨st.sequence_number + 1, st.stream ++ [PngChunkRec.fctl st.sequence_number]⟩ with
      hnone | ⟨k, hsome⟩
    · rw [hnone] at hstep
      cases hstep
    · rw [hsome] at hstep
      have heq := Option.some.inj hstep
      subst heq
      dsimp only
      rw [chunkSeqNums_append, chunkSeqNums_append, hinv, chunkSeqNums_fdats]
      rw [show chunkSeqNums [PngChunkRec.fctl st.sequence_number]
        = [st.sequence_number] from rfl]
      rw [List.range_add (st.sequence_number + 1) k, List.range_succ]

theorem encode_apng_run_from_inv :
    ∀ (frames : List (List (Option (Nat × Nat)) × Nat)) (n : Nat)
      (st st' : ApngStreamState),
      chunkSeqNums st.stream = List.range st.sequence_number →
      encode_apng_run_from n st frames = some st' →
      chunkSeqNums st'.stream = List.range st'.sequence_number := by
  intro frames
  induction frames with
  | nil =>
      intro n st st' hinv hrun
      unfold encode_apng_run_from at hrun
      obtain rfl : st = st' := by injection hrun
      exact hinv
  | cons fr rest ih =>
      intro n st st' hinv hrun
      unfold encode_apng_run_from at hrun
      rcases hstep : encode_apng_step st n fr.1 fr.2 with _ | st1
      · rw [hstep] at hrun
        cases hrun
      · rw [hstep] at hrun
        exact ih (n + 1) st1 st' (encode_apng_step_inv st st1 n fr.1 fr.2 hinv hstep) hrun

/-- C3: across an N-frame APNG encode, the sequence-number fields written
into the emitted fcTL and fdAT chunks form the gap-free ascending run
0, 1, 2, ... with no gaps and no duplicates: each fcTL takes the current
counter which is then incremented once, each fdAT takes the counter and
increments it once after the write, and the candidate search restores the
counter before each candidate encode and commits only the winner's
advance. -/
theorem C3_sequence_numbers (frames : List (List (Option (Nat × Nat)) × Nat))
    (st : ApngStreamState) (hrun : encode_apng_run frames = some st) :
    chunkSeqNums st.stream = List.range st.sequence_number :=
  encode_apng_run_from_inv frames 0 ⟨0, []⟩ st rfl hrun

/-- C3 witness: a concrete two-frame run (frame 0 emitting two IDATs, frame
1 choosing the smaller of two successful candidates) whose committed stream
carries sequence numbers 0, 1, 2. -/
theorem C3_sequence_numbers_witness :
    chunkSeqNums (ApngStreamState.mk 3
      [PngChunkRec.fctl 0, PngChunkRec.idat, PngChunkRec.idat,
       PngChunkRec.fctl 1, PngChunkRec.fdat 2]).stream
      = List.range (ApngStreamState.mk 3
      [PngChunkRec.fctl 0, PngChunkRec.idat, PngChunkRec.idat,
       PngChunkRec.fctl 1, PngChunkRec.fdat 2]).sequence_number :=
  C3_sequence_numbers [([], 2), ([some (2, 7), none, some (1, 3)], 0)]
    ⟨3, [PngChunkRec.fctl 0, PngChunkRec.idat, PngChunkRec.idat,
         PngChunkRec.fctl 1, PngChunkRec.fdat 2]⟩ (by decide)

/-! ## Packet flags of encode_png and encode_apng -/

/-- AV_PKT_FLAG_KEY (libavcodec/avcodec.h). -/
def AV_PKT_FLAG_KEY : Nat := 1

/-- Model of the packet finalisation of `encode_png` (pngenc.c:560-566):
`pkt->flags |= AV_PKT_FLAG_KEY; *got_packet = 1;`.  The pair is the final
packet flags and the `*got_packet` value. -/
def encode_png_emit (flags0 : Nat) : Nat × Bool :=
  (flags0 ||| AV_PKT_FLAG_KEY, true)

/-- Model of the packet emission of `encode_apng` (pngenc.c:920-943): when
`s->last_frame` is set the held-back packet is emitted with
`*got_packet = 1`; `pkt->flags` is never modified anywhere in
`encode_apng`. -/
def encode_apng_emit (flags0 : Nat) (hasLastFrame : Bool) : Nat × Bool :=
  (flags0, hasLastFrame)

/-- C5 counterexample: encode_apng emits a packet (`*got_packet = 1`) whose
flags field — zero-initialised by packet allocation — does not carry
AV_PKT_FLAG_KEY, so the claim that both encoders set the key flag on every
emitted packet is false. -/
theorem C5_counterexample :
    (encode_apng_emit 0 true).2 = true ∧
    (encode_apng_emit 0 true).1 &&& AV_PKT_FLAG_KEY = 0 := by
  decide

/-- C5 (amended): encode_png sets AV_PKT_FLAG_KEY on every packet it emits
with `*got_packet = 1`; encode_apng emits its packets with
`*got_packet = 1` when a held-back frame exists but leaves `pkt->flags`
untouched, so its packets do not carry the key flag from this encoder. -/
theorem C5_key_flag (flags0 : Nat) (hasLastFrame : Bool) :
    (encode_png_emit flags0).1 &&& AV_PKT_FLAG_KEY = 1 ∧
    (encode_png_emit flags0).2 = true ∧
    (encode_apng_emit flags0 hasLastFrame).1 = flags0 ∧
    (encode_apng_emit flags0 hasLastFrame).2 = hasLastFrame := by
  refine ⟨?_, rfl, rfl, rfl⟩
  show (flags0 ||| 1) &&& 1 = 1
  rw [Nat.and_one_is_mod]
  have h := Nat.testBit_lor flags0 1 0
  rw [Nat.testBit_zero, Nat.testBit_zero, Nat.testBit_zero] at h
  have h1 : decide ((flags0 ||| 1) % 2 = 1) = true := by
    rw [h]
    simp
  exact of_decide_eq_true h1

/-! ## The palette-uniqueness gate of encode_apng -/

/-- Model of the palette gate at the top of `encode_apng`
(pngenc.c:850-860), reached before any output is produced for the frame:
`checksum = ~av_crc(~0U, pict->data[1], 1024)` over the 1024 palette bytes;
frame 0 records it in `s->palette_checksum`, a later frame whose checksum
differs fails with an error (`return -1`) and a matching frame proceeds. -/
def encode_apng_palette_check (frame_number : Nat) (palette_checksum : Nat)
    (pal : List Nat) : Except Unit Nat :=
  let checksum := crc32 pal
  if frame_number = 0 then Except.ok checksum
  else if checksum ≠ palette_checksum then Except.error ()
  else Except.ok palette_checksum

/-- C9: frame 0 records the CRC-32 of the 1024 palette bytes; every later
frame whose palette checksum differs from the recorded one fails with the
palette-conflict error before any output, while a frame with a matching
checksum passes the gate. -/
theorem C9_palette_gate (pal0 pal : List Nat) (n : Nat)
    (hl0 : pal0.length = 1024) (hl : pal.length = 1024) (hn : n ≠ 0) :
    encode_apng_palette_check 0 0 pal0 = Except.ok (crc32 pal0) ∧
    (crc32 pal ≠ crc32 pal0 →
      encode_apng_palette_check n (crc32 pal0) pal = Except.error ()) ∧
    (crc32 pal = crc32 pal0 →
      encode_apng_palette_check n (crc32 pal0) pal = Except.ok (crc32 pal0)) := by
  refine ⟨rfl, ?_, ?_⟩
  · intro hne
    unfold encode_apng_palette_check
    rw [if_neg hn, if_pos hne]
  · intro heq
    unfold encode_apng_palette_check
    rw [if_neg hn, if_neg (by simp [heq])]

/-- C9 witness: two concrete 1024-byte palettes, the all-zero one and the
one with a single leading 1, whose checksums differ, so the gate errors on
the second frame and passes a re-sent first palette. -/
theorem C9_palette_gate_witness :
    encode_apng_palette_check 0 0 (List.replicate 1024 0)
      = Except.ok (crc32 (List.replicate 1024 0)) ∧
    (crc32 (1 :: List.replicate 1023 0) ≠ crc32 (List.replicate 1024 0) →
      encode_apng_palette_check 1 (crc32 (List.replicate 1024 0))
        (1 :: List.replicate 1023 0) = Except.error ()) ∧
    (crc32 (1 :: List.replicate 1023 0) = crc32 (List.replicate 1024 0) →
      encode_apng_palette_check 1 (crc32 (List.replicate 1024 0))
        (1 :: List.replicate 1023 0) = Except.ok (crc32 (List.replicate 1024 0))) :=
  C9_palette_gate (List.replicate 1024 0) (1 :: List.replicate 1023 0) 1
    (by rw [List.length_replicate]) (by rw [List.length_cons, List.length_replicate])
    (by decide)

/-! ## Silent discard when the output buffer runs short -/

/-- IOBUF_SIZE (pngenc.c:38). -/
def IOBUF_SIZE : Nat := 4096

/-- The output-buffer bookkeeping of the image-data writer: the room left
in the caller's packet buffer (`bytestream_end - bytestream`), the payload
sizes of the chunks actually written, and the payload sizes silently
dropped. -/
structure IdatOutState where
  remaining : Nat
  emitted : List Nat
  discarded : List Nat
deriving DecidableEq

/-- Model of the `avail_out == 0` branch of `png_write_row`
(pngenc.c:282-287): the full scratch buffer is flushed as a chunk only when
`bytestream_end - bytestream > IOBUF_SIZE + 100`; otherwise the compressed
bytes are dropped on the floor and the scratch buffer is simply reset.
`overhead` is the chunk framing written besides the payload (12 bytes for
IDAT, 16 for fdAT).  The Int component is the function's return value,
which is 0 (success) on this path either way. -/
def png_write_row_flush (overhead : Nat) (st : IdatOutState) : IdatOutState × Int :=
  (if IOBUF_SIZE + 100 < st.remaining then
    ⟨st.remaining - (IOBUF_SIZE + overhead), st.emitted ++ [IOBUF_SIZE], st.discarded⟩
  else
    ⟨st.remaining, st.emitted, st.discarded ++ [IOBUF_SIZE]⟩, 0)

/-- Model of the `Z_FINISH` flush at the end of `encode_frame`
(pngenc.c:496-512): the pending `len` bytes are written only when `len > 0`
and `bytestream_end - bytestream > len + 100`; otherwise they are silently
dropped, and `ret` is 0 either way once the stream ends. -/
def encode_frame_final_flush (overhead len : Nat) (st : IdatOutState) :
    IdatOutState × Int :=
  (if 0 < len ∧ len + 100 < st.remaining then
    ⟨st.remaining - (len + overhead), st.emitted ++ [len], st.discarded⟩
  else if 0 < len then
    ⟨st.remaining, st.emitted, st.discarded ++ [len]⟩
  else ⟨st.remaining, st.emitted, st.discarded⟩, 0)

/-- C10: when the DEFLATE scratch buffer fills but no more than
IOBUF_SIZE + 100 bytes of room remain, png_write_row writes no chunk,
discards the compressed bytes and still returns 0; likewise the final flush
of encode_frame discards a pending block of `len > 0` bytes when no more
than `len + 100` bytes remain, and encode_frame still reports success. -/
theorem C10_silent_discard (overhead len : Nat) (st : IdatOutState) :
    (st.remaining ≤ IOBUF_SIZE + 100 →
      (png_write_row_flush overhead st).1.emitted = st.emitted ∧
      (png_write_row_flush overhead st).1.discarded = st.discarded ++ [IOBUF_SIZE] ∧
      (png_write_row_flush overhead st).2 = 0) ∧
    (0 < len → st.remaining ≤ len + 100 →
      (encode_frame_final_flush overhead len st).1.emitted = st.emitted ∧
      (encode_frame_final_flush overhead len st).1.discarded = st.discarded ++ [len] ∧
      (encode_frame_final_flush overhead len st).2 = 0) := by
  constructor
  · intro hroom
    unfold png_write_row_flush
    rw [if_neg (by omega)]
    exact ⟨rfl, rfl, rfl⟩
  · intro hlen hroom
    unfold encode_frame_final_flush
    rw [if_neg (by omega), if_pos hlen]
    exact ⟨rfl, rfl, rfl⟩

end PngEnc
